import Mathlib

/-!
Verification of the treecall genotyping engine (src/utils.py, src/geno.py).

The Python code is shallowly embedded: numpy arrays of Phred-scaled
likelihoods become real-valued vectors indexed by Fin 10 (one slot per
genotype) or lists, trees become an inductive type, and the per-batch
numpy pipeline is decomposed per site (every numpy operation used by the
pipeline acts sitewise along axis 0, so this decomposition is exact).
Floating point arithmetic is idealised as real arithmetic.
-/

open scoped BigOperators

/-! ## Phred transforms (utils.py lines 49-72) -/

/-- Embedding of p2phred (utils.py line 49): x maps to -10 * log10 x. -/
noncomputable def p2phred (x : ℝ) : ℝ := -10 * Real.logb 10 x

/-- Embedding of phred2p (utils.py line 52): x maps to 10 powered to (-x/10). -/
noncomputable def phred2p (x : ℝ) : ℝ := (10 : ℝ) ^ (-x / 10)

/-- Embedding of normalize_PL (utils.py lines 58-60): convert to probability
domain, divide by the total, convert back. -/
noncomputable def normalize_PL (x : List ℝ) : List ℝ :=
  x.map (fun xi => p2phred (phred2p xi / (x.map phred2p).sum))

theorem phred2p_pos (x : ℝ) : 0 < phred2p x :=
  Real.rpow_pos_of_pos (by norm_num) _

theorem phred2p_p2phred {p : ℝ} (hp : 0 < p) : phred2p (p2phred p) = p := by
  unfold phred2p p2phred
  have h : -(-10 * Real.logb 10 p) / 10 = Real.logb 10 p := by ring
  rw [h]
  exact Real.rpow_logb (by norm_num) (by norm_num) hp

theorem p2phred_phred2p (x : ℝ) : p2phred (phred2p x) = x := by
  unfold phred2p p2phred
  rw [Real.logb_rpow (by norm_num) (by norm_num)]
  ring

/-! ## Genotype space and distance model (utils.py lines 74-88) -/

/-- Levenshtein (unit cost edit) distance between two character lists; this is
what the editdistance package function strdist computes for the genotype
strings (delete and insert cost 1, substitution costs 1 when the characters
differ and 0 otherwise). -/
def lev (xs ys : List Char) : ℕ := levenshtein Levenshtein.defaultCost xs ys

/-- Per-pair genotype distance (utils.py line 86): the minimum of the edit
distance between the two genotype strings and the edit distance between the
first and the reversal of the second. -/
def gdist (g1 g2 : String) : ℕ :=
  min (lev g1.data g2.data) (lev g1.data g2.data.reverse)

/-- The fixed alphabetically ordered list of the 10 unordered diploid
genotypes over A, C, G, T (geno.py lines 106 and 134). -/
def GTYPE10 : List String :=
  ["AA", "AC", "AG", "AT", "CC", "CG", "CT", "GG", "GT", "TT"]

/-- Embedding of gtype_distance (utils.py lines 74-88): the pairwise distance
matrix over a genotype list. -/
def gtype_distance (gt : List String) : Fin gt.length → Fin gt.length → ℕ :=
  fun i j => gdist (gt.get i) (gt.get j)

/-- The genotype string AC, used to state allele-order invariance. -/
def gAC : String := "AC"

/-- The string CA, the allele-swapped spelling of the genotype AC. -/
def gCA : String := "CA"

/-! ## Substitution model builders (utils.py lines 90-140) -/

/-- Embedding of make_mut_matrix (utils.py lines 90-109).  The matrix mm has
entry pmu powered to the genotype distance; np.fill_diagonal then replaces
each diagonal entry with 2.0 minus the column sum of the matrix as it was
before the fill (that pre-fill column sum includes the old diagonal entry,
which is pmu powered to 0, that is 1).  mm0 is np.diagflat of the diagonal
of mm and mm1 is mm - mm0. -/
noncomputable def make_mut_matrix (mu : ℝ) (gtypes : List String) :
    (Fin gtypes.length → Fin gtypes.length → ℝ) ×
    (Fin gtypes.length → Fin gtypes.length → ℝ) ×
    (Fin gtypes.length → Fin gtypes.length → ℝ) :=
  let pmu := phred2p mu
  let gt_dist := gtype_distance gtypes
  let mmPre : Fin gtypes.length → Fin gtypes.length → ℝ :=
    fun i j => pmu ^ gt_dist i j
  let mm : Fin gtypes.length → Fin gtypes.length → ℝ :=
    fun i j => if i = j then 2 - ∑ k, mmPre k j else mmPre i j
  let mm0 : Fin gtypes.length → Fin gtypes.length → ℝ :=
    fun i j => if i = j then mm i j else 0
  let mm1 : Fin gtypes.length → Fin gtypes.length → ℝ :=
    fun i j => mm i j - mm0 i j
  (mm, mm0, mm1)

/-- Entry of a list-of-lists matrix, defaulting to 0 out of range. -/
def entryL (A : List (List ℝ)) (i j : ℕ) : ℝ := (A.getD i []).getD j 0

/-- Elementwise sum of two list-of-lists matrices (numpy +). -/
def matAddL (A B : List (List ℝ)) : List (List ℝ) :=
  A.zipWith (fun ra rb => ra.zipWith (· + ·) rb) B

/-- Elementwise difference of two list-of-lists matrices (numpy -). -/
def matSubL (A B : List (List ℝ)) : List (List ℝ) :=
  A.zipWith (fun ra rb => ra.zipWith (· - ·) rb) B

/-- Diagonal of a list-of-lists matrix (numpy diagonal). -/
def diagonalL (A : List (List ℝ)) : List ℝ :=
  A.enum.map (fun p => p.2.getD p.1 0)

/-- numpy diagflat: square matrix with the given diagonal and zeros
elsewhere. -/
def diagflatL (d : List ℝ) : List (List ℝ) :=
  (List.range d.length).map
    (fun i => (List.range d.length).map (fun j => if i = j then d.getD i 0 else 0))

/-- Embedding of make_mut_matrix_gtype10 (utils.py lines 126-140).  Despite
its name it returns the hard coded 3 by 3 matrix of the gtype3 builder (the
body is a verbatim copy of make_mut_matrix_gtype3 and carries a FIX ME
comment in the source). -/
noncomputable def make_mut_matrix_gtype10 (mu : ℝ) :
    List (List ℝ) × List (List ℝ) × List (List ℝ) :=
  let pmu := phred2p mu
  let nmu := 1 - pmu
  let mm : List (List ℝ) :=
    [[nmu ^ 2, 2 * pmu * nmu, pmu * pmu],
     [nmu * pmu, pmu ^ 2 + nmu ^ 2, nmu * pmu],
     [pmu * pmu, 2 * pmu * nmu, (1 - pmu) ^ 2]]
  let mm0 := diagflatL (diagonalL mm)
  let mm1 := matSubL mm mm0
  (mm, mm0, mm1)

/-- Whether the two alleles of a genotype string differ (the comprehension
g[0] != g[1] in utils.py line 158). -/
def isHet (g : String) : Bool :=
  match g.data with
  | a :: b :: _ => a != b
  | _ => false

/-- Embedding of make_base_prior (utils.py lines 142-158): normalize_PL of
the indicator of heterozygosity scaled by het. -/
noncomputable def make_base_prior (het : ℝ) (gtypes : List String) : List ℝ :=
  normalize_PL (gtypes.map (fun g => (if isHet g then 1 else 0) * het))

/-! ## Lineage trees

The trees handled by the engine are rooted binary trees whose leaves carry
sample indices (spec section 3; init_tree in utils.py lines 26-47 assigns
post-order node ids and sorted subtended sample lists). -/

/-- A rooted binary lineage tree; leaves carry the sample index that names
the column of the per-site likelihood array. -/
inductive PTree where
  | leaf (sample : ℕ)
  | node (l r : PTree)
deriving DecidableEq, Repr

/-- Number of leaves of a tree (len(tree) in ete2). -/
def numLeaves : PTree → ℕ
  | .leaf _ => 1
  | .node l r => numLeaves l + numLeaves r

/-- Post-order listing of all subtrees: left subtree nodes, right subtree
nodes, then the root, matching traverse(strategy=postorder) in ete2. -/
def postorder : PTree → List PTree
  | .leaf s => [.leaf s]
  | .node l r => postorder l ++ postorder r ++ [.node l r]

/-- All nodes except the root, in post order: this is what
iter_descendants(strategy=postorder) yields, since the root is the last
entry of the post-order traversal. -/
def descendants (t : PTree) : List PTree := (postorder t).dropLast

/-- Whether a tree node is internal (not a leaf). -/
def isInternalB : PTree → Bool
  | .leaf _ => false
  | .node _ _ => true

/-- Sorted list of sample ids subtended by a node (node.sid after
init_tree, utils.py lines 33-45). -/
def sidSort (xs : List ℕ) : List ℕ := xs.foldr insertIdAux []
where
  insertIdAux (x : ℕ) : List ℕ → List ℕ
    | [] => [x]
    | y :: ys => if x ≤ y then x :: y :: ys else y :: insertIdAux x ys

/-- The node.sid attribute: the sorted sample ids below a node. -/
def sid : PTree → List ℕ
  | .leaf s => [s]
  | .node l r => sidSort (sid l ++ sid r)

/-! ## Pruning propagator (utils.py lines 190-212)

populate_tree_PL acts on the whole (site, sample, genotype) array at once,
but every operation it uses (slicing along the sample axis, np.dot against a
genotype by genotype matrix, elementwise addition) acts on each site row
independently, so it is embedded one site at a time.  A site assigns each
sample a Phred vector over the G genotypes. -/

/-- One child contribution inside the pruning loop (utils.py line 210):
p2phred of the probability-domain child vector times the transition
matrix. -/
noncomputable def childContrib {G : ℕ} (mm : Fin G → Fin G → ℝ)
    (v : Fin G → ℝ) (j : Fin G) : ℝ :=
  p2phred (∑ k, phred2p (v k) * mm k j)

/-- Embedding of populate_tree_PL at one site.  A leaf receives the input
likelihood vector of its sample (utils.py line 206); an internal node starts
from the zero vector (np.zeros, line 208) and adds the transformed vector of
each of its two children in order (line 210). -/
noncomputable def populate_tree_PL {G : ℕ} (mm : Fin G → Fin G → ℝ)
    (pls : ℕ → Fin G → ℝ) : PTree → Fin G → ℝ
  | .leaf s => pls s
  | .node l r => fun j =>
      0 + childContrib mm (populate_tree_PL mm pls l) j
        + childContrib mm (populate_tree_PL mm pls r) j

/-! ## Mutation placement enumerator (utils.py lines 160-188)

calc_mut_likelihoods fills, for each internal node, a stacked array PLm
whose first axis ranges over candidate mutation placements in the subtree.
For each child in order the code first copies the placements of that child
(each pushed through mm0 and combined with the sister through mm0), then
appends the placement where the mutation sits on the edge to that child (the
child through mm1, the sister through mm0).  Embedded per site, the PLm of a
subtree is the list of placement vectors in exactly that order. -/

/-- Embedding of calc_mut_likelihoods at one site: the list of placement
vectors attached to a subtree, in the order the code fills the first axis of
PLm.  pl0 gives the no-mutation aggregate (the PL0 attribute) of every
subtree. -/
noncomputable def calc_mut_likelihoods {G : ℕ} (mm0 mm1 : Fin G → Fin G → ℝ)
    (pl0 : PTree → Fin G → ℝ) : PTree → List (Fin G → ℝ)
  | .leaf _ => []
  | .node l r =>
      ((calc_mut_likelihoods mm0 mm1 pl0 l).map
          (fun e j => childContrib mm0 e j + childContrib mm0 (pl0 r) j)
        ++ [fun j => childContrib mm1 (pl0 l) j + childContrib mm0 (pl0 r) j])
      ++ ((calc_mut_likelihoods mm0 mm1 pl0 r).map
          (fun e j => childContrib mm0 e j + childContrib mm0 (pl0 l) j)
        ++ [fun j => childContrib mm1 (pl0 r) j + childContrib mm0 (pl0 l) j])

/-- The tree node whose incoming edge carries the mutation, for each
placement entry of calc_mut_likelihoods, listed in the same order as the
entries themselves (entries inherited from a child keep their location, the
appended entry is located on the edge to that child). -/
def mutLocations : PTree → List PTree
  | .leaf _ => []
  | .node l r => (mutLocations l ++ [l]) ++ (mutLocations r ++ [r])

/-! ## Site caller (geno.py lines 130-192)

The numpy argmin returns the first index attaining the minimum of the
flattened array, in row-major order. -/

/-- Fold step of argmin: scan the remaining entries, keeping the earliest
strict minimum seen so far together with its index. -/
noncomputable def argminAux : List ℝ → ℕ → ℕ × ℝ → ℕ × ℝ
  | [], _, best => best
  | x :: xs, i, best => argminAux xs (i + 1) (if x < best.2 then (i, x) else best)

/-- Index of the first minimal entry of a list (np.argmin); 0 on the empty
list. -/
noncomputable def argminIdx : List ℝ → ℕ
  | [] => 0
  | x :: xs => (argminAux xs 1 (0, x)).1

/-- Argmin of a genotype vector (np.argmin along the genotype axis). -/
noncomputable def argminF (v : Fin 10 → ℝ) : ℕ :=
  argminIdx ((List.finRange 10).map v)

/-- The empty string (used as an out-of-range default for getD). -/
def emptyS : String := ""

/-- The comma separator used to join sample ids (geno.py line 169). -/
def commaS : String := ","

/-- The all-zero genotype vector, used as an out-of-range default. -/
def zeroV : Fin 10 → ℝ := fun _ => 0

/-- Input for one site: the variant metadata together with the per-sample
Phred likelihood vectors over the 10 genotypes. -/
structure SiteIn where
  chrom : String
  pos : Int
  ref : String
  pls : ℕ → Fin 10 → ℝ

/-- One output row of genotype (geno.py lines 170-190). -/
structure SiteRecord where
  chrom : String
  pos : Int
  ref : String
  null_p : ℝ
  mut_p : ℝ
  null_base : String
  null_base_p : ℝ
  mut_base : String
  mut_alt : String
  mut_conf_p : ℝ
  mut_loc : ℕ
  mut_smpl : String

/-- Root aggregate with the base prior added (geno.py lines 137 and 144):
tree.PL plus base_prior, for the transition matrix mm passed in. -/
noncomputable def site_tree_PL (t : PTree) (pls : ℕ → Fin 10 → ℝ)
    (mm : Fin 10 → Fin 10 → ℝ) (prior : Fin 10 → ℝ) : Fin 10 → ℝ :=
  fun j => populate_tree_PL mm pls t j + prior j

/-- Stacked mutation aggregates with the base prior added (geno.py lines
147-149): the placement entries of calc_mut_likelihoods at the root, each
plus base_prior. -/
noncomputable def site_mut_PLs (t : PTree) (pls : ℕ → Fin 10 → ℝ)
    (mm0 mm1 : Fin 10 → Fin 10 → ℝ) (prior : Fin 10 → ℝ) : List (Fin 10 → ℝ) :=
  (calc_mut_likelihoods mm0 mm1 (fun u => populate_tree_PL mm0 pls u) t).map
    (fun e j => e j + prior j)

/-- Row-major flattening of the mutation aggregates for one site (the array
s that geno.py line 160 takes the argmin of). -/
noncomputable def site_flat (t : PTree) (pls : ℕ → Fin 10 → ℝ)
    (mm0 mm1 : Fin 10 → Fin 10 → ℝ) (prior : Fin 10 → ℝ) : List ℝ :=
  ((site_mut_PLs t pls mm0 mm1 prior).map (fun e => (List.finRange 10).map e)).flatten

/-- Flat argmin index of the mutation aggregates (geno.py line 160). -/
noncomputable def site_k1 (t : PTree) (pls : ℕ → Fin 10 → ℝ)
    (mm0 mm1 : Fin 10 → Fin 10 → ℝ) (prior : Fin 10 → ℝ) : ℕ :=
  argminIdx (site_flat t pls mm0 mm1 prior)

/-- Most likely mutation location (np.unravel_index row, geno.py lines
160-161): the flat index divided by the number of genotypes. -/
noncomputable def site_k1l (t : PTree) (pls : ℕ → Fin 10 → ℝ)
    (mm0 mm1 : Fin 10 → Fin 10 → ℝ) (prior : Fin 10 → ℝ) : ℕ :=
  site_k1 t pls mm0 mm1 prior / 10

/-- Most likely pre-mutation genotype index (np.unravel_index column,
geno.py lines 160-162): the flat index modulo the number of genotypes. -/
noncomputable def site_k1g (t : PTree) (pls : ℕ → Fin 10 → ℝ)
    (mm0 mm1 : Fin 10 → Fin 10 → ℝ) (prior : Fin 10 → ℝ) : ℕ :=
  site_k1 t pls mm0 mm1 prior % 10

/-- Embedding of the per-site body of genotype (geno.py lines 130-190),
producing the output row of one site. -/
noncomputable def genotype_site (t : PTree) (s : SiteIn)
    (mm mm0 mm1 : Fin 10 → Fin 10 → ℝ) (base_prior : Fin 10 → ℝ) : SiteRecord :=
  let tree_PL := site_tree_PL t s.pls mm base_prior
  let tree_PL0 := site_tree_PL t s.pls mm0 base_prior
  let mut_PLs := site_mut_PLs t s.pls mm0 mm1 base_prior
  let tree_P := ∑ j, phred2p (tree_PL j)
  let k0 := argminF tree_PL0
  let null_PL := ((List.finRange 10).map tree_PL0).getD k0 0
  let null_P := ∑ j, phred2p (tree_PL0 j)
  let k1l := site_k1l t s.pls mm0 mm1 base_prior
  let k1g := site_k1g t s.pls mm0 mm1 base_prior
  let mut_PL := ((List.finRange 10).map (mut_PLs.getD k1l zeroV)).getD k1g 0
  let mut_P := (mut_PLs.map (fun e => ∑ j, phred2p (e j))).sum
  let null_PLs := (descendants t).map (fun u => populate_tree_PL mm0 s.pls u)
  let k2 := argminF (null_PLs.getD k1l zeroV)
  let node_sids := (descendants t).map
    (fun u => String.intercalate commaS ((sid u).map toString))
  { chrom := s.chrom, pos := s.pos, ref := s.ref,
    null_p := null_P / tree_P,
    mut_p := mut_P / tree_P,
    null_base := GTYPE10.getD k0 emptyS,
    null_base_p := phred2p null_PL / tree_P,
    mut_base := GTYPE10.getD k1g emptyS,
    mut_alt := GTYPE10.getD k2 emptyS,
    mut_conf_p := phred2p mut_PL / tree_P,
    mut_loc := k1l,
    mut_smpl := node_sids.getD k1l emptyS }

/-- Embedding of genotype over a batch of sites (geno.py lines 130-192):
the list of per-site records and the batch score, which is the sum over
records of p2phred of mut_p plus null_p (line 191). -/
noncomputable def genotype_batch (t : PTree) (sites : List SiteIn)
    (mm mm0 mm1 : Fin 10 → Fin 10 → ℝ) (base_prior : Fin 10 → ℝ) :
    List SiteRecord × ℝ :=
  let records := sites.map (fun s => genotype_site t s mm mm0 mm1 base_prior)
  (records, (records.map (fun r => p2phred (r.mut_p + r.null_p))).sum)

/-- The tree node corresponding to the reported best mutation location: the
entry of the post-order descendant list indexed by k1l (geno.py lines
166-167 index the stacked per-descendant PL0 array by k1l). -/
noncomputable def bestLocNode (t : PTree) (pls : ℕ → Fin 10 → ℝ)
    (mm0 mm1 : Fin 10 → Fin 10 → ℝ) (prior : Fin 10 → ℝ) : PTree :=
  (descendants t).getD (site_k1l t pls mm0 mm1 prior) (PTree.leaf 0)

/-- Claim C5 as stated: the node corresponding to the best mutation location
is an internal node, and the reported mutant genotype is the one minimizing
the no-mutation aggregate of that node. -/
noncomputable def claimC5 (t : PTree) (s : SiteIn)
    (mm mm0 mm1 : Fin 10 → Fin 10 → ℝ) (prior : Fin 10 → ℝ) : Prop :=
  isInternalB (bestLocNode t s.pls mm0 mm1 prior) = true ∧
  (genotype_site t s mm mm0 mm1 prior).mut_alt =
    GTYPE10.getD (argminF (populate_tree_PL mm0 s.pls (bestLocNode t s.pls mm0 mm1 prior))) emptyS

/-- Concrete two-leaf tree for the C5 counterexample. -/
def ctree : PTree := PTree.node (PTree.leaf 0) (PTree.leaf 1)

/-- Concrete site input for the C5 counterexample: both samples certain
(Phred 0) for every genotype slot. -/
noncomputable def cSite : SiteIn :=
  { chrom := "chr1", pos := 1, ref := "A", pls := fun _ _ => 0 }

/-- Concrete no-mutation transition component for the C5 counterexample
(identity: off-diagonal zero). -/
noncomputable def cmm0 : Fin 10 → Fin 10 → ℝ := fun i j => if i = j then 1 else 0

/-- Concrete mutation transition component for the C5 counterexample
(diagonal zero). -/
noncomputable def cmm1 : Fin 10 → Fin 10 → ℝ := fun i j => if i = j then 0 else 1

/-- Concrete full transition matrix for the C5 counterexample. -/
noncomputable def cmm : Fin 10 → Fin 10 → ℝ := fun i j => cmm0 i j + cmm1 i j

/-- Concrete base prior for the C5 counterexample (uniform prior over the
10 genotypes in Phred scale). -/
noncomputable def cprior : Fin 10 → ℝ := fun _ => 10

/-! ## State model for the frame behaviour of genotype (claim C10)

geno.py genotype mutates state in three ways: it attaches attributes to
tree nodes with setattr, it binds numpy views of the caller PLs array to
leaf attributes (PLs[:, sid, :] is a view, not a copy), and it performs one
in-place array update (mut_PLs += base_prior on line 149, which writes
through a swapaxes view into the PLm array of the tree it was taken from).
To settle the frame claim we model the heap explicitly: a store of numpy
buffers, a store of tree-node objects (attribute tables), and the caller
PLs buffer.  A reference is either a view of a sample column of the caller
PLs or an owned buffer; writing through a view really rewrites the caller
PLs in the model, so the theorem that the caller PLs survives unchanged is
about where the writes of the code actually land.

Two faithful simplifications are made and noted inline: chains of setattr
rebindings that only allocate fresh arrays (a = a + b allocates, it never
writes in place) are collapsed to a single allocation of the final value,
and the per-node fill loop of calc_mut_likelihoods, which writes only into
the PLm buffer allocated for that same node, is collapsed to one in-place
write of the filled contents. -/

/-- Contents of a numpy buffer: a (site, genotype) matrix or a (placement,
site, genotype) stack. -/
inductive ArrVal where
  | m2 (a : List (List ℝ))
  | m3 (a : List (List (List ℝ)))

instance : Inhabited ArrVal := ⟨ArrVal.m2 []⟩

/-- A reference to array storage: a view of one sample column of the caller
PLs array, or an owned buffer in the heap. -/
inductive Ref where
  | viewPLs (sample : ℕ)
  | own (id : ℕ)
deriving DecidableEq

/-- The mutable state visible to genotype: the caller PLs buffer (site by
sample by genotype), the heap of owned numpy buffers, and the store of
tree-node objects, each an attribute table. -/
structure PyState where
  pls : List (List (List ℝ))
  heap : List ArrVal
  nodes : List (List (String × Ref))

/-- Read one sample column of the PLs buffer (the view PLs[:, sample, :]). -/
def plsColumn (pls : List (List (List ℝ))) (sm : ℕ) : List (List ℝ) :=
  pls.map (fun site => site.getD sm [])

/-- Write a (site, genotype) matrix through the column view: row i of the
matrix replaces the sample row of site i. -/
def plsSetColumn (pls : List (List (List ℝ))) (sm : ℕ)
    (a : List (List ℝ)) : List (List (List ℝ)) :=
  pls.enum.map (fun p => p.2.set sm (a.getD p.1 []))

/-- Allocate a fresh owned buffer; its id is the previous heap length. -/
def allocArr (st : PyState) (v : ArrVal) : PyState × Ref :=
  ({ st with heap := st.heap ++ [v] }, Ref.own st.heap.length)

/-- Dereference: a view reads the current caller PLs column, an owned id
reads the heap. -/
def readArr (st : PyState) : Ref → ArrVal
  | .viewPLs sm => ArrVal.m2 (plsColumn st.pls sm)
  | .own i => st.heap.getD i default

/-- In-place array store (numpy +=, slice assignment).  A write through a
PLs view rewrites the caller PLs buffer; a write to an owned id rewrites
the heap.  The view/m3 arm is a shape mismatch that no modelled trace
produces. -/
def writeArr (st : PyState) (r : Ref) (v : ArrVal) : PyState :=
  match r, v with
  | .viewPLs sm, .m2 a => { st with pls := plsSetColumn st.pls sm a }
  | .viewPLs _, .m3 _ => st
  | .own i, w => { st with heap := st.heap.set i w }

/-- Allocate a fresh tree-node object carrying the given attribute table. -/
def allocNode (st : PyState) (tbl : List (String × Ref)) : PyState × ℕ :=
  ({ st with nodes := st.nodes ++ [tbl] }, st.nodes.length)

/-- Replace or add one binding of an attribute table. -/
def setTbl (tbl : List (String × Ref)) (name : String) (r : Ref) :
    List (String × Ref) :=
  tbl.filter (fun e => e.1 ≠ name) ++ [(name, r)]

/-- Python setattr on a tree-node object. -/
def setattrN (st : PyState) (oid : ℕ) (name : String) (r : Ref) : PyState :=
  { st with nodes := st.nodes.set oid (setTbl (st.nodes.getD oid []) name r) }

/-- The attribute name PL. -/
def strPL : String := "PL"

/-- The attribute name PL0. -/
def strPL0 : String := "PL0"

/-- The attribute name PLm. -/
def strPLm : String := "PLm"

/-- A tree instance as Python sees it: the topology together with the
object id of every node. -/
inductive ObjTree where
  | leaf (sample oid : ℕ)
  | node (l r : ObjTree) (oid : ℕ)

/-- Forget the object ids, recovering the topology. -/
def shapeOf : ObjTree → PTree
  | .leaf s _ => PTree.leaf s
  | .node l r _ => PTree.node (shapeOf l) (shapeOf r)

/-- Deep copy of one attribute table: every referenced array is copied into
a fresh owned buffer (tree.copy uses cPickle, which deep-copies attached
arrays, so views of the caller PLs are severed by a copy). -/
def copyTbl (st : PyState) : List (String × Ref) → PyState × List (String × Ref)
  | [] => (st, [])
  | e :: rest =>
      let pa := allocArr st (readArr st e.2)
      let pr := copyTbl pa.1 rest
      (pr.1, (e.1, pa.2) :: pr.2)

/-- Embedding of tree.copy (geno.py lines 136, 140, 147): fresh node
objects with deep-copied attribute tables, same topology. -/
def copyTree (st : PyState) : ObjTree → PyState × ObjTree
  | .leaf s oid =>
      let p1 := copyTbl st (st.nodes.getD oid [])
      let p2 := allocNode p1.1 p1.2
      (p2.1, ObjTree.leaf s p2.2)
  | .node l r oid =>
      let pl := copyTree st l
      let pr := copyTree pl.1 r
      let p1 := copyTbl pr.1 (pr.1.nodes.getD oid [])
      let p2 := allocNode p1.1 p1.2
      (p2.1, ObjTree.node pl.2 pr.2 p2.2)

/-- Read the per-site likelihood functions out of the caller PLs buffer. -/
def plsFun (pls : List (List (List ℝ))) (siteIdx : ℕ) : ℕ → Fin 10 → ℝ :=
  fun sm j => ((pls.getD siteIdx []).getD sm []).getD j.val 0

/-- Contents of the aggregate array a populate pass attaches to an internal
node: one genotype row per site, computed by the pure per-site embedding. -/
noncomputable def nodeValM2 (pls : List (List (List ℝ)))
    (mm : Fin 10 → Fin 10 → ℝ) (u : PTree) : ArrVal :=
  ArrVal.m2 ((List.range pls.length).map
    (fun siteIdx => (List.finRange 10).map (populate_tree_PL mm (plsFun pls siteIdx) u)))

/-- Embedding of populate_tree_PL as a state transformer (utils.py lines
190-212): post-order over the tree, a leaf gets the attribute bound to a
view of its sample column of the caller PLs (line 206 binds a slice, which
is a view), an internal node gets a freshly allocated buffer holding its
aggregate (the zeros-then-rebind chain of lines 208-210 only allocates new
arrays, so it is collapsed to the allocation of the final value).  Returns
the state and the attribute reference of the root of the subtree. -/
noncomputable def populateSt (mm : Fin 10 → Fin 10 → ℝ) (attr : String) :
    PyState → ObjTree → PyState × Ref
  | st, .leaf s oid => (setattrN st oid attr (Ref.viewPLs s), Ref.viewPLs s)
  | st, .node l r oid =>
      let pl := populateSt mm attr st l
      let pr := populateSt mm attr pl.1 r
      let pa := allocArr pr.1 (nodeValM2 pr.1.pls mm (shapeOf (ObjTree.node l r oid)))
      (setattrN pa.1 oid attr pa.2, pa.2)

/-- Number of placement rows the code allocates for the PLm array of a
subtree: 2 * len(node) - 2 (utils.py line 175). -/
def plmRows (u : PTree) : ℕ := 2 * numLeaves u - 2

/-- Contents of the filled PLm buffer of a subtree: placement rows by sites
by genotypes, computed by the pure per-site embedding. -/
noncomputable def plmValM3 (pls : List (List (List ℝ)))
    (mm0 mm1 : Fin 10 → Fin 10 → ℝ) (u : PTree) : ArrVal :=
  ArrVal.m3 ((List.range (plmRows u)).map
    (fun p => (List.range pls.length).map
      (fun siteIdx => (List.finRange 10).map
        ((calc_mut_likelihoods mm0 mm1
            (fun w => populate_tree_PL mm0 (plsFun pls siteIdx) w) u).getD p zeroV))))

/-- An all-zero placement stack of the shape np.zeros allocates at utils.py
line 175. -/
def zerosM3 (rows sites : ℕ) : ArrVal :=
  ArrVal.m3 (List.replicate rows (List.replicate sites (List.replicate 10 (0 : ℝ))))

/-- Embedding of calc_mut_likelihoods as a state transformer (utils.py
lines 160-188): each internal node allocates its PLm buffer (np.zeros,
line 175) and the fill loop then writes into that same buffer in place
(lines 177-186, collapsed to one in-place write of the filled contents).
Returns the state and the PLm reference of the subtree root (a dummy view
for a leaf, which the code never gives a PLm). -/
noncomputable def calcSt (mm0 mm1 : Fin 10 → Fin 10 → ℝ) :
    PyState → ObjTree → PyState × Ref
  | st, .leaf s _ => (st, Ref.viewPLs s)
  | st, .node l r oid =>
      let pl := calcSt mm0 mm1 st l
      let pr := calcSt mm0 mm1 pl.1 r
      let pa := allocArr pr.1
        (zerosM3 (plmRows (shapeOf (ObjTree.node l r oid))) pr.1.pls.length)
      let st1 := writeArr pa.1 pa.2
        (plmValM3 pa.1.pls mm0 mm1 (shapeOf (ObjTree.node l r oid)))
      (setattrN st1 oid strPLm pa.2, pa.2)

/-- Add the base prior along the genotype axis of a buffer (the broadcast
mut_PLs += base_prior of geno.py line 149). -/
noncomputable def addPrior (v : ArrVal) (prior : Fin 10 → ℝ) : ArrVal :=
  match v with
  | .m2 a => ArrVal.m2 (a.map
      (fun row => (List.finRange 10).map (fun j => row.getD j.val 0 + prior j)))
  | .m3 a => ArrVal.m3 (a.map (fun pm => pm.map
      (fun row => (List.finRange 10).map (fun j => row.getD j.val 0 + prior j))))

/-- Embedding of the state effects of genotype (geno.py lines 130-149) on a
caller tree with internal root (node lt rt, object id oid):

tree = populate_tree_PL(tree.copy(), PLs, mm, PL);
tree = populate_tree_PL(tree.copy(), PLs, mm0, PL0);
tree = calc_mut_likelihoods(tree.copy(), mm0, mm1);
mut_PLs = np.swapaxes(tree.PLm, 0, 1); mut_PLs += base_prior.

The final statement writes in place through the swapaxes view into the PLm
buffer of the last copy; swapaxes only permutes how the same buffer is
indexed, so the write target is the root PLm reference itself.  Every
computation after line 149 allocates fresh arrays and is pure, so the model
ends here.  Returns the final state. -/
noncomputable def genotype_st (st : PyState) (lt rt : ObjTree) (oid : ℕ)
    (mm mm0 mm1 : Fin 10 → Fin 10 → ℝ) (prior : Fin 10 → ℝ) : PyState :=
  let c1 := copyTree st (ObjTree.node lt rt oid)
  let s1 := populateSt mm strPL c1.1 c1.2
  let c2 := copyTree s1.1 c1.2
  let s2 := populateSt mm0 strPL0 c2.1 c2.2
  let c3 := copyTree s2.1 c2.2
  let s3 := calcSt mm0 mm1 c3.1 c3.2
  writeArr s3.1 s3.2 (addPrior (readArr s3.1 s3.2) prior)

/-- Frame relation between two states: the caller PLs buffer is unchanged,
the first N node objects (the caller tree) are unchanged, and the node
store only grew. -/
structure Pres (N : ℕ) (st1 st2 : PyState) : Prop where
  pls_eq : st2.pls = st1.pls
  take_eq : st2.nodes.take N = st1.nodes.take N
  len_le : st1.nodes.length ≤ st2.nodes.length

/-- All object ids of a tree instance lie at or beyond index N of the node
store (they are objects freshly allocated during the call, not caller
objects). -/
def OidsGE (N : ℕ) : ObjTree → Prop
  | .leaf _ oid => N ≤ oid
  | .node l r oid => OidsGE N l ∧ OidsGE N r ∧ N ≤ oid

/-! ## Theorems -/

/-- C1: the substitution-model builder invoked by the genotyping pipeline
(make_mut_matrix_gtype10, called from genotype_main at geno.py line 113)
does NOT return a 10 by 10 matrix over the 10 genotypes: for every mutation
rate it returns the hard coded 3 by 3 matrix of the gtype3 builder.  This
theorem evaluates the code at the failing input: the returned matrix has 3
rows of 3 entries, not 10. -/
theorem C1_gtype10_builder_returns_3x3 (mu : ℝ) :
    (make_mut_matrix_gtype10 mu).1.length = 3 ∧
    (make_mut_matrix_gtype10 mu).1.map List.length = [3, 3, 3] ∧
    (make_mut_matrix_gtype10 mu).1.length ≠ GTYPE10.length := by
  refine ⟨rfl, rfl, ?_⟩
  intro h
  rw [show (make_mut_matrix_gtype10 mu).1.length = 3 from rfl] at h
  exact absurd h (by decide)

/-- C2: the pruning pass assigns each leaf exactly the input likelihood
vector of its sample, unchanged, and assigns each internal node the
elementwise Phred-domain sum over its children of PhredOf applied to the
probability-domain child aggregate multiplied by the transition matrix. -/
theorem C2_pruning_pass {G : ℕ} (mm : Fin G → Fin G → ℝ) (pls : ℕ → Fin G → ℝ) :
    (∀ s, populate_tree_PL mm pls (PTree.leaf s) = pls s) ∧
    (∀ l r, populate_tree_PL mm pls (PTree.node l r) =
      ([l, r].map (fun c => fun j =>
        p2phred (∑ k, phred2p (populate_tree_PL mm pls c k) * mm k j))).sum) := by
  refine ⟨fun s => rfl, fun l r => ?_⟩
  funext j
  simp [populate_tree_PL, childContrib, Pi.add_apply, Pi.zero_apply]

/-- C9: on the fixed genotype set the pairwise distance is zero on the
diagonal and symmetric, and the underlying string distance is invariant to
allele order within a genotype, in particular it gives 0 on AC versus CA. -/
theorem C9_distance_properties :
    (∀ i : Fin GTYPE10.length, gtype_distance GTYPE10 i i = 0) ∧
    (∀ i j : Fin GTYPE10.length,
      gtype_distance GTYPE10 i j = gtype_distance GTYPE10 j i) ∧
    gdist gAC gCA = 0 := by
  refine ⟨by decide, by decide, by decide⟩

/-- C6: for every mutation rate (and genotype list) the decomposition
returned by both substitution-model builders satisfies mm0 + mm1 = mm
exactly elementwise, with mm0 equal to the diagonal of mm (zero off the
diagonal) and mm1 equal to mm minus its diagonal (zero on the diagonal). -/
theorem C6_decomposition (mu : ℝ) (gtypes : List String) :
    ((make_mut_matrix mu gtypes).2.1 + (make_mut_matrix mu gtypes).2.2
      = (make_mut_matrix mu gtypes).1) ∧
    (∀ i j, (make_mut_matrix mu gtypes).2.1 i j =
      if i = j then (make_mut_matrix mu gtypes).1 i j else 0) ∧
    (∀ i j, (make_mut_matrix mu gtypes).2.2 i j =
      if i = j then 0 else (make_mut_matrix mu gtypes).1 i j) ∧
    (matAddL (make_mut_matrix_gtype10 mu).2.1 (make_mut_matrix_gtype10 mu).2.2
      = (make_mut_matrix_gtype10 mu).1) ∧
    (∀ i j : Fin 3, entryL (make_mut_matrix_gtype10 mu).2.1 i j =
      if (i : ℕ) = j then entryL (make_mut_matrix_gtype10 mu).1 i j else 0) ∧
    (∀ i j : Fin 3, entryL (make_mut_matrix_gtype10 mu).2.2 i j =
      if (i : ℕ) = j then 0 else entryL (make_mut_matrix_gtype10 mu).1 i j) := by
  refine ⟨?_, ?_, ?_, ?_, ?_, ?_⟩
  · funext i j
    simp only [make_mut_matrix, Pi.add_apply]
    ring
  · intro i j
    by_cases h : i = j <;> simp [make_mut_matrix, h]
  · intro i j
    by_cases h : i = j <;> simp [make_mut_matrix, h]
  · simp only [make_mut_matrix_gtype10, diagflatL, diagonalL, matSubL, matAddL,
      List.enum, List.range, List.zipWith, List.map, List.getD, List.range.loop]
    norm_num
  · intro i j
    fin_cases i <;> fin_cases j <;>
      simp [make_mut_matrix_gtype10, diagflatL, diagonalL, matSubL, entryL,
        List.enum, List.range, List.range.loop]
  · intro i j
    fin_cases i <;> fin_cases j <;>
      simp [make_mut_matrix_gtype10, diagflatL, diagonalL, matSubL, entryL,
        List.enum, List.range, List.range.loop]

/-- C7: splitting a site list into two consecutive batches and running the
per-batch genotyping function on each batch separately yields the same
per-site records as one run over the whole list, and the two batch scores
sum to the whole-list score. -/
theorem C7_batch_invariance (t : PTree) (xs ys : List SiteIn)
    (mm mm0 mm1 : Fin 10 → Fin 10 → ℝ) (base_prior : Fin 10 → ℝ) :
    (genotype_batch t (xs ++ ys) mm mm0 mm1 base_prior).1 =
      (genotype_batch t xs mm mm0 mm1 base_prior).1 ++
      (genotype_batch t ys mm mm0 mm1 base_prior).1 ∧
    (genotype_batch t (xs ++ ys) mm mm0 mm1 base_prior).2 =
      (genotype_batch t xs mm mm0 mm1 base_prior).2 +
      (genotype_batch t ys mm mm0 mm1 base_prior).2 := by
  constructor
  · simp [genotype_batch]
  · simp [genotype_batch]

/-- Helper: dividing every entry of a list by a constant divides the sum. -/
theorem sum_map_div (xs : List ℝ) (c : ℝ) :
    (xs.map (fun x => x / c)).sum = xs.sum / c := by
  induction xs with
  | nil => simp
  | cons a l ih => simp [List.sum_cons, add_div, ih]

/-- Helper: a nonempty list of positive reals divided entrywise by its own
sum sums to 1. -/
theorem sum_map_div_sum (xs : List ℝ) (h : xs ≠ [])
    (hpos : ∀ x ∈ xs, 0 < x) :
    (xs.map (fun x => x / xs.sum)).sum = 1 := by
  have hsum : 0 < xs.sum := List.sum_pos xs hpos h
  rw [sum_map_div]
  exact div_self (ne_of_gt hsum)

/-- C8: the prior builder assigns raw Phred score het to each heterozygous
genotype and 0 to each homozygous one and then normalizes in probability
domain; for a nonempty genotype list the probability-domain image of the
returned prior sums to 1. -/
theorem C8_base_prior (het : ℝ) (gtypes : List String) (h : gtypes ≠ []) :
    make_base_prior het gtypes =
      normalize_PL (gtypes.map (fun g => (if isHet g then 1 else 0) * het)) ∧
    ((make_base_prior het gtypes).map phred2p).sum = 1 := by
  refine ⟨rfl, ?_⟩
  unfold make_base_prior normalize_PL
  have hx : ∀ raw : List ℝ, raw ≠ [] →
      ((raw.map (fun xi => phred2p (p2phred (phred2p xi / (raw.map phred2p).sum)))).sum = 1) := by
    intro raw hraw
    have hpos : ∀ x ∈ raw.map phred2p, 0 < x := by
      intro x hxm
      obtain ⟨y, _, rfl⟩ := List.mem_map.mp hxm
      exact phred2p_pos y
    have hne : raw.map phred2p ≠ [] := by
      simpa using hraw
    have hsum : 0 < (raw.map phred2p).sum := List.sum_pos _ hpos hne
    have hstep : ∀ xi : ℝ,
        phred2p (p2phred (phred2p xi / (raw.map phred2p).sum))
          = phred2p xi / (raw.map phred2p).sum := by
      intro xi
      exact phred2p_p2phred (div_pos (phred2p_pos xi) hsum)
    calc (raw.map (fun xi => phred2p (p2phred (phred2p xi / (raw.map phred2p).sum)))).sum
        = (raw.map (fun xi => phred2p xi / (raw.map phred2p).sum)).sum := by
          exact congrArg List.sum (List.map_congr_left (fun xi _ => hstep xi))
      _ = ((raw.map phred2p).map (fun p => p / (raw.map phred2p).sum)).sum := by
          rw [List.map_map]; rfl
      _ = 1 := sum_map_div_sum _ (by simpa using hraw) hpos
  have hraw : gtypes.map (fun g => (if isHet g then 1 else 0) * het) ≠ [] := by
    simpa using h
  have h2 := hx (gtypes.map (fun g => (if isHet g then 1 else 0) * het)) hraw
  simpa [Function.comp, List.map_map] using h2

/-- Witness for C8 at the run defaults: het 30 over the fixed 10-genotype
list. -/
theorem C8_base_prior_witness :
    ((make_base_prior 30 GTYPE10).map phred2p).sum = 1 :=
  (C8_base_prior 30 GTYPE10 (by decide)).2

/-- Helper: every tree has at least one leaf. -/
theorem numLeaves_pos (t : PTree) : 1 ≤ numLeaves t := by
  induction t with
  | leaf s => simp [numLeaves]
  | node l r ihl ihr => simp only [numLeaves]; omega

/-- Helper: the placement list of a subtree has 2 * numLeaves - 2 entries,
stated without truncated subtraction. -/
theorem calc_mut_length_add_two {G : ℕ} (mm0 mm1 : Fin G → Fin G → ℝ)
    (pl0 : PTree → Fin G → ℝ) (t : PTree) :
    (calc_mut_likelihoods mm0 mm1 pl0 t).length + 2 = 2 * numLeaves t := by
  induction t with
  | leaf s => simp [calc_mut_likelihoods, numLeaves]
  | node l r ihl ihr =>
      simp only [calc_mut_likelihoods, numLeaves, List.length_append,
        List.length_map, List.length_cons, List.length_nil] at *
      omega

/-- Helper: the placement list and the location list have the same length. -/
theorem calc_mut_length_eq_mutLocations {G : ℕ} (mm0 mm1 : Fin G → Fin G → ℝ)
    (pl0 : PTree → Fin G → ℝ) (t : PTree) :
    (calc_mut_likelihoods mm0 mm1 pl0 t).length = (mutLocations t).length := by
  induction t with
  | leaf s => rfl
  | node l r ihl ihr =>
      simp only [calc_mut_likelihoods, mutLocations, List.length_append,
        List.length_map, List.length_cons, List.length_nil] at *
      omega

/-- Helper: appending the root to the location list gives the post-order
traversal. -/
theorem mutLocations_append_root (t : PTree) :
    mutLocations t ++ [t] = postorder t := by
  induction t with
  | leaf s => rfl
  | node l r ihl ihr =>
      simp only [mutLocations, postorder]
      rw [← ihl, ← ihr]

/-- Helper: the location list is the post-order traversal without its last
entry (the root). -/
theorem mutLocations_eq_dropLast (t : PTree) :
    mutLocations t = (postorder t).dropLast := by
  rw [← mutLocations_append_root t]
  simp

/-- C3: for every binary tree with m leaves the mutation-placement
enumerator produces at the root a placement list with exactly 2m - 2
entries, and these entries correspond one-to-one, in the order the code
fills them, with the non-root nodes of the tree in post order (the
descendant listing geno.py indexes with the reported location). -/
theorem C3_placement_count {G : ℕ} (mm0 mm1 : Fin G → Fin G → ℝ)
    (pl0 : PTree → Fin G → ℝ) (t : PTree) :
    (calc_mut_likelihoods mm0 mm1 pl0 t).length = 2 * numLeaves t - 2 ∧
    (calc_mut_likelihoods mm0 mm1 pl0 t).length = (mutLocations t).length ∧
    mutLocations t = descendants t := by
  refine ⟨?_, calc_mut_length_eq_mutLocations mm0 mm1 pl0 t, ?_⟩
  · have := calc_mut_length_add_two mm0 mm1 pl0 t
    omega
  · rw [mutLocations_eq_dropLast]
    rfl

/-- Helper: the scanning argmin never returns an index at or beyond the end
of the scanned region. -/
theorem argminAux_fst_lt (xs : List ℝ) (i : ℕ) (best : ℕ × ℝ)
    (h : best.1 < i) : (argminAux xs i best).1 < i + xs.length := by
  induction xs generalizing i best with
  | nil => simpa [argminAux] using h
  | cons x l ih =>
      simp only [argminAux]
      have hb : (if x < best.2 then (i, x) else best).1 < i + 1 := by
        split
        · simp
        · omega
      have h2 := ih (i + 1) (if x < best.2 then (i, x) else best) hb
      simp only [List.length_cons]
      omega

/-- Helper: np.argmin of a nonempty list is a valid index. -/
theorem argminIdx_lt_length (xs : List ℝ) (h : xs ≠ []) :
    argminIdx xs < xs.length := by
  match xs, h with
  | x :: l, _ =>
      simp only [argminIdx, List.length_cons]
      have := argminAux_fst_lt l 1 (0, x) (by norm_num)
      omega

/-- Helper: the flattened mutation-aggregate array of one site has ten
entries per placement row. -/
theorem site_flat_length (t : PTree) (pls : ℕ → Fin 10 → ℝ)
    (mm0 mm1 : Fin 10 → Fin 10 → ℝ) (prior : Fin 10 → ℝ) :
    (site_flat t pls mm0 mm1 prior).length =
      10 * (site_mut_PLs t pls mm0 mm1 prior).length := by
  unfold site_flat
  rw [List.length_flatten, List.map_map]
  have : ∀ e : Fin 10 → ℝ, (List.length ∘ fun e' : Fin 10 → ℝ =>
      (List.finRange 10).map e') e = 10 := by
    intro e
    simp
  rw [List.map_congr_left (fun e _ => this e)]
  simp [List.sum_replicate, List.map_const]
  ring

/-- Helper: the number of placement rows at the root of an internal tree is
positive, and the reported location index is a valid index into the
post-order descendant list. -/
theorem site_k1l_lt_descendants (l r : PTree) (pls : ℕ → Fin 10 → ℝ)
    (mm0 mm1 : Fin 10 → Fin 10 → ℝ) (prior : Fin 10 → ℝ) :
    site_k1l (PTree.node l r) pls mm0 mm1 prior <
      (descendants (PTree.node l r)).length := by
  set t := PTree.node l r with ht
  have hlenm : (site_mut_PLs t pls mm0 mm1 prior).length =
      (calc_mut_likelihoods mm0 mm1 (fun u => populate_tree_PL mm0 pls u) t).length := by
    unfold site_mut_PLs
    rw [List.length_map]
  have hcalc := calc_mut_length_add_two mm0 mm1
    (fun u => populate_tree_PL mm0 pls u) t
  have hnl : 2 ≤ numLeaves t := by
    rw [ht]
    simp only [numLeaves]
    have := numLeaves_pos l
    have := numLeaves_pos r
    omega
  have hcalc2 : (site_mut_PLs t pls mm0 mm1 prior).length + 2 = 2 * numLeaves t := by
    rw [hlenm]
    exact hcalc
  have hpos : 0 < (site_mut_PLs t pls mm0 mm1 prior).length := by omega
  have hne : site_flat t pls mm0 mm1 prior ≠ [] := by
    intro hcontra
    have hfl := site_flat_length t pls mm0 mm1 prior
    rw [hcontra] at hfl
    simp only [List.length_nil] at hfl
    omega
  have hk1 := argminIdx_lt_length _ hne
  rw [site_flat_length] at hk1
  have hk1b : site_k1 t pls mm0 mm1 prior =
      argminIdx (site_flat t pls mm0 mm1 prior) := rfl
  have hdiv : site_k1 t pls mm0 mm1 prior / 10 <
      (site_mut_PLs t pls mm0 mm1 prior).length :=
    (Nat.div_lt_iff_lt_mul (by norm_num)).mpr (by omega)
  have hdesc : (descendants t).length =
      (site_mut_PLs t pls mm0 mm1 prior).length := by
    have h1 := mutLocations_append_root t
    have h2 : (mutLocations t).length + 1 = (postorder t).length := by
      rw [← h1]
      simp
    have h3 := calc_mut_length_eq_mutLocations mm0 mm1
      (fun u => populate_tree_PL mm0 pls u) t
    have h4 : (descendants t).length = (postorder t).length - 1 := by
      unfold descendants
      simp
    omega
  rw [hdesc]
  exact hdiv

/-- C5 counterexample: the claim as stated requires the node at the chosen
best mutation location to be an internal node, but on the two-leaf tree
every candidate location is a leaf edge, so for this concrete input the
lookup happens at a leaf, which is not an internal node. -/
theorem C5_counterexample : ¬ claimC5 ctree cSite cmm cmm0 cmm1 cprior := by
  intro h
  unfold claimC5 at h
  obtain ⟨h1, -⟩ := h
  have hdesc : descendants ctree = [PTree.leaf 0, PTree.leaf 1] := rfl
  unfold bestLocNode at h1
  rw [hdesc] at h1
  rcases hn : site_k1l ctree cSite.pls cmm0 cmm1 cprior with _ | n
  · rw [hn] at h1
    simp [List.getD, isInternalB] at h1
  · rcases n with _ | m
    · rw [hn] at h1
      simp [List.getD, isInternalB] at h1
    · rw [hn] at h1
      simp [List.getD, isInternalB] at h1

/-- C5 (amended): for every tree with an internal root, the reported mutant
genotype is the genotype minimizing the no-mutation aggregate of the
non-root node (leaf or internal, listed in post order) that corresponds to
the chosen best mutation location. -/
theorem C5_amended_mut_alt (l r : PTree) (s : SiteIn)
    (mm mm0 mm1 : Fin 10 → Fin 10 → ℝ) (prior : Fin 10 → ℝ) :
    (genotype_site (PTree.node l r) s mm mm0 mm1 prior).mut_alt =
      GTYPE10.getD
        (argminF (populate_tree_PL mm0 s.pls
          (bestLocNode (PTree.node l r) s.pls mm0 mm1 prior))) emptyS := by
  have hlt := site_k1l_lt_descendants l r s.pls mm0 mm1 prior
  have hmain : ((descendants (PTree.node l r)).map
        (fun u => populate_tree_PL mm0 s.pls u)).getD
        (site_k1l (PTree.node l r) s.pls mm0 mm1 prior) zeroV =
      populate_tree_PL mm0 s.pls (bestLocNode (PTree.node l r) s.pls mm0 mm1 prior) := by
    have hlt2 : site_k1l (PTree.node l r) s.pls mm0 mm1 prior <
        ((descendants (PTree.node l r)).map
          (fun u => populate_tree_PL mm0 s.pls u)).length := by
      simpa using hlt
    rw [List.getD_eq_getElem _ _ hlt2, List.getElem_map]
    unfold bestLocNode
    rw [List.getD_eq_getElem _ _ hlt]
  have hgoal : (genotype_site (PTree.node l r) s mm mm0 mm1 prior).mut_alt =
      GTYPE10.getD (argminF
        (((descendants (PTree.node l r)).map
          (fun u => populate_tree_PL mm0 s.pls u)).getD
          (site_k1l (PTree.node l r) s.pls mm0 mm1 prior) zeroV)) emptyS := rfl
  rw [hgoal, hmain]

/-- Helper: a mapped list sum as a sum over the index type of the list. -/
theorem list_sum_map_eq_fin_sum {α : Type} (xs : List α) (f : α → ℝ) :
    (xs.map f).sum = ∑ i : Fin xs.length, f (xs.get i) := by
  induction xs with
  | nil => simp
  | cons a lrest ih =>
      rw [List.map_cons, List.sum_cons, ih]
      show _ = ∑ i : Fin (lrest.length + 1), f ((a :: lrest).get i)
      rw [Fin.sum_univ_succ]
      simp

/-- C4: per site, the reported null_P is the probability-domain mass of the
prior-added no-mutation aggregate divided by the mass of the prior-added
total aggregate; the reported mut_P is the mass of the prior-added mutation
aggregates, summed over all location and genotype pairs, divided by the
same denominator; and the run score is the sum over sites of PhredOf of
mut_P plus null_P. -/
theorem C4_site_caller (t : PTree) (sites : List SiteIn)
    (mm mm0 mm1 : Fin 10 → Fin 10 → ℝ) (prior : Fin 10 → ℝ) :
    (∀ s : SiteIn,
      (genotype_site t s mm mm0 mm1 prior).null_p =
        (∑ j, phred2p (populate_tree_PL mm0 s.pls t j + prior j)) /
        (∑ j, phred2p (populate_tree_PL mm s.pls t j + prior j)) ∧
      (genotype_site t s mm mm0 mm1 prior).mut_p =
        (∑ i : Fin (site_mut_PLs t s.pls mm0 mm1 prior).length,
          ∑ j, phred2p ((site_mut_PLs t s.pls mm0 mm1 prior).get i j)) /
        (∑ j, phred2p (populate_tree_PL mm s.pls t j + prior j))) ∧
    (genotype_batch t sites mm mm0 mm1 prior).2 =
      (sites.map (fun s => p2phred ((genotype_site t s mm mm0 mm1 prior).mut_p +
        (genotype_site t s mm mm0 mm1 prior).null_p))).sum := by
  refine ⟨fun s => ⟨rfl, ?_⟩, ?_⟩
  · have h := list_sum_map_eq_fin_sum (site_mut_PLs t s.pls mm0 mm1 prior)
      (fun e => ∑ j, phred2p (e j))
    show ((site_mut_PLs t s.pls mm0 mm1 prior).map
        (fun e => ∑ j, phred2p (e j))).sum /
        (∑ j, phred2p (site_tree_PL t s.pls mm prior j)) = _
    rw [h]
    rfl
  · simp only [genotype_batch, List.map_map]
    rfl

/-- Helper: setting an entry at or beyond index n leaves the length-n
prefix of a list unchanged. -/
theorem take_set_of_le {α : Type} (xs : List α) (i n : ℕ) (v : α)
    (h : n ≤ i) : (xs.set i v).take n = xs.take n := by
  induction xs generalizing i n with
  | nil => simp
  | cons a lrest ih =>
      cases i with
      | zero =>
          have hn : n = 0 := by omega
          subst hn
          simp
      | succ i2 =>
          cases n with
          | zero => simp
          | succ n2 =>
              rw [List.set_cons_succ, List.take_succ_cons, List.take_succ_cons,
                ih i2 n2 (by omega)]

/-- Helper: composition of the frame relation. -/
theorem Pres.comp {N : ℕ} {st1 st2 st3 : PyState}
    (h1 : Pres N st1 st2) (h2 : Pres N st2 st3) : Pres N st1 st3 :=
  ⟨h2.pls_eq.trans h1.pls_eq, h2.take_eq.trans h1.take_eq,
    le_trans h1.len_le h2.len_le⟩

/-- Helper: allocating an array buffer preserves the frame. -/
theorem allocArr_pres (N : ℕ) (st : PyState) (v : ArrVal) :
    Pres N st (allocArr st v).1 :=
  ⟨rfl, rfl, le_refl _⟩

/-- Helper: an in-place write to an owned buffer touches neither the caller
PLs nor the node store. -/
theorem writeArr_own_pres (N : ℕ) (st : PyState) (k : ℕ) (v : ArrVal) :
    Pres N st (writeArr st (Ref.own k) v) := by
  cases v <;> exact ⟨rfl, rfl, le_refl _⟩

/-- Helper: setattr on an object allocated during the call (id at or beyond
the caller prefix) preserves the frame. -/
theorem setattrN_pres (N : ℕ) (st : PyState) (oid : ℕ) (name : String)
    (r : Ref) (h : N ≤ oid) : Pres N st (setattrN st oid name r) := by
  refine ⟨rfl, ?_, ?_⟩
  · exact take_set_of_le st.nodes oid N _ h
  · simp [setattrN]

/-- Helper: allocating a node object preserves the frame. -/
theorem allocNode_pres (N : ℕ) (st : PyState) (tbl : List (String × Ref))
    (h : N ≤ st.nodes.length) : Pres N st (allocNode st tbl).1 := by
  refine ⟨rfl, ?_, ?_⟩
  · exact List.take_append_of_le_length h
  · simp [allocNode]

/-- Helper: copying an attribute table only allocates array buffers: the
caller PLs and the node store are untouched. -/
theorem copyTbl_state (st : PyState) (tbl : List (String × Ref)) :
    (copyTbl st tbl).1.pls = st.pls ∧ (copyTbl st tbl).1.nodes = st.nodes := by
  induction tbl generalizing st with
  | nil => exact ⟨rfl, rfl⟩
  | cons e rest ih =>
      exact ⟨(ih (allocArr st (readArr st e.2)).1).1,
        (ih (allocArr st (readArr st e.2)).1).2⟩

/-- Helper: copying an attribute table preserves the frame. -/
theorem copyTbl_pres (N : ℕ) (st : PyState) (tbl : List (String × Ref)) :
    Pres N st (copyTbl st tbl).1 := by
  obtain ⟨h1, h2⟩ := copyTbl_state st tbl
  exact ⟨h1, by rw [h2], by rw [h2]⟩

/-- Helper: tree.copy preserves the frame, and every node object of the
copy is allocated beyond the caller prefix. -/
theorem copyTree_pres (N : ℕ) (st : PyState) (t : ObjTree)
    (h : N ≤ st.nodes.length) :
    Pres N st (copyTree st t).1 ∧ OidsGE N (copyTree st t).2 := by
  induction t generalizing st with
  | leaf s oid =>
      have hc := copyTbl_pres N st (st.nodes.getD oid [])
      have hlen : N ≤ (copyTbl st (st.nodes.getD oid [])).1.nodes.length :=
        le_trans h hc.len_le
      exact ⟨Pres.comp hc (allocNode_pres N _ _ hlen), hlen⟩
  | node l r oid ihl ihr =>
      obtain ⟨hpl, hol⟩ := ihl st h
      have h2 : N ≤ (copyTree st l).1.nodes.length := le_trans h hpl.len_le
      obtain ⟨hpr, hor⟩ := ihr (copyTree st l).1 h2
      have h3 : N ≤ (copyTree (copyTree st l).1 r).1.nodes.length :=
        le_trans h2 hpr.len_le
      have hc := copyTbl_pres N (copyTree (copyTree st l).1 r).1
        ((copyTree (copyTree st l).1 r).1.nodes.getD oid [])
      have h4 : N ≤ (copyTbl (copyTree (copyTree st l).1 r).1
          ((copyTree (copyTree st l).1 r).1.nodes.getD oid [])).1.nodes.length :=
        le_trans h3 hc.len_le
      refine ⟨?_, hol, hor, h4⟩
      exact Pres.comp (Pres.comp (Pres.comp hpl hpr) hc) (allocNode_pres N _ _ h4)

/-- Helper: a populate pass only writes attributes of objects allocated
during the call, so it preserves the frame. -/
theorem populateSt_pres (N : ℕ) (mm : Fin 10 → Fin 10 → ℝ) (attr : String)
    (st : PyState) (t : ObjTree) (ht : OidsGE N t) :
    Pres N st (populateSt mm attr st t).1 := by
  induction t generalizing st with
  | leaf s oid => exact setattrN_pres N st oid attr _ ht
  | node l r oid ihl ihr =>
      obtain ⟨hl, hr, ho⟩ := ht
      have h1 := ihl st hl
      have h2 := ihr (populateSt mm attr st l).1 hr
      have h3 := allocArr_pres N
        (populateSt mm attr (populateSt mm attr st l).1 r).1
        (nodeValM2 (populateSt mm attr (populateSt mm attr st l).1 r).1.pls mm
          (shapeOf (ObjTree.node l r oid)))
      have h4 := setattrN_pres N
        (allocArr (populateSt mm attr (populateSt mm attr st l).1 r).1
          (nodeValM2 (populateSt mm attr (populateSt mm attr st l).1 r).1.pls mm
            (shapeOf (ObjTree.node l r oid)))).1
        oid attr
        (allocArr (populateSt mm attr (populateSt mm attr st l).1 r).1
          (nodeValM2 (populateSt mm attr (populateSt mm attr st l).1 r).1.pls mm
            (shapeOf (ObjTree.node l r oid)))).2 ho
      exact Pres.comp (Pres.comp (Pres.comp h1 h2) h3) h4

/-- Helper: the per-node tail of the placement pass (allocate the PLm
buffer, fill it in place, setattr it on a call-allocated object) preserves
the frame, for any starting state. -/
theorem calcSt_node_tail_pres (N : ℕ) (mm0 mm1 : Fin 10 → Fin 10 → ℝ)
    (stx : PyState) (sh : PTree) (oid : ℕ) (ho : N ≤ oid) :
    Pres N stx (setattrN
      (writeArr (allocArr stx (zerosM3 (plmRows sh) stx.pls.length)).1
        (allocArr stx (zerosM3 (plmRows sh) stx.pls.length)).2
        (plmValM3 (allocArr stx (zerosM3 (plmRows sh) stx.pls.length)).1.pls
          mm0 mm1 sh))
      oid strPLm (allocArr stx (zerosM3 (plmRows sh) stx.pls.length)).2) := by
  have hA := allocArr_pres N stx (zerosM3 (plmRows sh) stx.pls.length)
  have hW := writeArr_own_pres N
    (allocArr stx (zerosM3 (plmRows sh) stx.pls.length)).1
    stx.heap.length
    (plmValM3 (allocArr stx (zerosM3 (plmRows sh) stx.pls.length)).1.pls
      mm0 mm1 sh)
  have hS := setattrN_pres N
    (writeArr (allocArr stx (zerosM3 (plmRows sh) stx.pls.length)).1
      (Ref.own stx.heap.length)
      (plmValM3 (allocArr stx (zerosM3 (plmRows sh) stx.pls.length)).1.pls
        mm0 mm1 sh))
    oid strPLm (allocArr stx (zerosM3 (plmRows sh) stx.pls.length)).2 ho
  exact Pres.comp (Pres.comp hA hW) hS

/-- Helper: the placement pass allocates each PLm buffer fresh and writes
only into those buffers, so it preserves the frame. -/
theorem calcSt_pres (N : ℕ) (mm0 mm1 : Fin 10 → Fin 10 → ℝ)
    (st : PyState) (t : ObjTree) (ht : OidsGE N t) :
    Pres N st (calcSt mm0 mm1 st t).1 := by
  induction t generalizing st with
  | leaf s oid => exact ⟨rfl, rfl, le_refl _⟩
  | node l r oid ihl ihr =>
      obtain ⟨hl, hr, ho⟩ := ht
      have h1 := ihl st hl
      have h2 := ihr (calcSt mm0 mm1 st l).1 hr
      have h3 := calcSt_node_tail_pres N mm0 mm1
        (calcSt mm0 mm1 (calcSt mm0 mm1 st l).1 r).1
        (shapeOf (ObjTree.node l r oid)) oid ho
      exact Pres.comp (Pres.comp h1 h2) h3

/-- Helper: copying a tree with internal root yields a tree with internal
root. -/
theorem copyTree_node_shape (st : PyState) (l r : ObjTree) (o : ℕ) :
    ∃ l2 r2 o2, (copyTree st (ObjTree.node l r o)).2 = ObjTree.node l2 r2 o2 :=
  ⟨_, _, _, rfl⟩

/-- Helper: the PLm reference of an internal root is an owned buffer. -/
theorem calcSt_node_ref_own (mm0 mm1 : Fin 10 → Fin 10 → ℝ) (st : PyState)
    (l r : ObjTree) (o : ℕ) :
    ∃ k, (calcSt mm0 mm1 st (ObjTree.node l r o)).2 = Ref.own k :=
  ⟨_, rfl⟩

/-- Helper: tree.copy preserves the topology. -/
theorem copyTree_shape (st : PyState) (t : ObjTree) :
    shapeOf (copyTree st t).2 = shapeOf t := by
  induction t generalizing st with
  | leaf s oid => rfl
  | node l r oid ihl ihr =>
      show PTree.node (shapeOf (copyTree st l).2)
        (shapeOf (copyTree (copyTree st l).1 r).2) = _
      rw [ihl st, ihr (copyTree st l).1]
      rfl

/-- Helper: a tree instance whose topology is internal is itself an
internal node. -/
theorem node_of_shape (u : ObjTree) (a b : PTree)
    (h : shapeOf u = PTree.node a b) :
    ∃ l2 r2 o2, u = ObjTree.node l2 r2 o2 := by
  cases u with
  | leaf s o => simp [shapeOf] at h
  | node l2 r2 o2 => exact ⟨l2, r2, o2, rfl⟩

/-- C10: the per-batch genotyping function leaves both of its inputs
unchanged: the caller PLs buffer is identical after the call (even though
leaf attributes of the working copies are bound to views of it and one
in-place array update is performed), and the caller tree node objects (the
prefix of the node store that existed before the call) keep exactly their
attribute tables, every setattr landing on freshly copied objects. -/
theorem C10_frame (st : PyState) (lt rt : ObjTree) (oid : ℕ)
    (mm mm0 mm1 : Fin 10 → Fin 10 → ℝ) (prior : Fin 10 → ℝ) :
    (genotype_st st lt rt oid mm mm0 mm1 prior).pls = st.pls ∧
    (genotype_st st lt rt oid mm mm0 mm1 prior).nodes.take st.nodes.length
      = st.nodes := by
  set A := copyTree st (ObjTree.node lt rt oid) with hA
  set B := populateSt mm strPL A.1 A.2 with hB
  set C := copyTree B.1 A.2 with hC
  set D := populateSt mm0 strPL0 C.1 C.2 with hD
  set E := copyTree D.1 C.2 with hE
  set F := calcSt mm0 mm1 E.1 E.2 with hF
  have hP1 := copyTree_pres st.nodes.length st (ObjTree.node lt rt oid) (le_refl _)
  rw [← hA] at hP1
  obtain ⟨P1, O1⟩ := hP1
  have P2 := populateSt_pres st.nodes.length mm strPL A.1 A.2 O1
  rw [← hB] at P2
  have hP3 := copyTree_pres st.nodes.length B.1 A.2
    (le_trans P1.len_le P2.len_le)
  rw [← hC] at hP3
  obtain ⟨P3, O3⟩ := hP3
  have P4 := populateSt_pres st.nodes.length mm0 strPL0 C.1 C.2 O3
  rw [← hD] at P4
  have L4 : st.nodes.length ≤ D.1.nodes.length :=
    le_trans (le_trans (le_trans P1.len_le P2.len_le) P3.len_le) P4.len_le
  have hP5 := copyTree_pres st.nodes.length D.1 C.2 L4
  rw [← hE] at hP5
  obtain ⟨P5, O5⟩ := hP5
  have P6 := calcSt_pres st.nodes.length mm0 mm1 E.1 E.2 O5
  rw [← hF] at P6
  have Pall : Pres st.nodes.length st F.1 :=
    Pres.comp (Pres.comp (Pres.comp (Pres.comp (Pres.comp P1 P2) P3) P4) P5) P6
  have hshape : shapeOf E.2 = PTree.node (shapeOf lt) (shapeOf rt) := by
    rw [hE, copyTree_shape, hC, copyTree_shape, hA, copyTree_shape]
    rfl
  obtain ⟨l3, r3, o3, hE2⟩ := node_of_shape E.2 _ _ hshape
  obtain ⟨k, hk⟩ := calcSt_node_ref_own mm0 mm1 E.1 l3 r3 o3
  have hF2 : F.2 = Ref.own k := by
    rw [hF, hE2]
    exact hk
  have P7 := writeArr_own_pres st.nodes.length F.1 k
    (addPrior (readArr F.1 (Ref.own k)) prior)
  have PresFinal := Pres.comp Pall P7
  have hgoal : genotype_st st lt rt oid mm mm0 mm1 prior =
      writeArr F.1 F.2 (addPrior (readArr F.1 F.2) prior) := by
    rw [hF, hE, hD, hC, hB, hA]
    rfl
  rw [hgoal, hF2]
  exact ⟨PresFinal.pls_eq, by rw [PresFinal.take_eq, List.take_length]⟩
